import Mathlib

/-!
# Booth Shell: a shallow embedding of `src/boothshell.c`

The C program is a read / tokenize / dispatch loop.  Every C function is
translated into a Lean function of the same name that threads an explicit
`World` (standard input still unread, working directory, chronological trace of
the externally visible actions) and returns an `Outcome`.

Conventions of the embedding

* a C string is the list of its characters before the terminating NUL
  (`Str`); a `char *` that may be `NULL` is an `Option Str`;
* heap blocks are lists of cells, one cell per element, `none` standing for a
  cell that was allocated but never written; the length of the list is the
  allocated capacity, so a store is in bounds exactly when the index is below
  the length.  An out-of-bounds access, a read of an unwritten cell and a
  signed `int` overflow are undefined behaviour in C and are the outcome
  `Outcome.undefined`;
* the operating system and the C library are an oracle `OS` (results of
  `malloc`, `realloc`, `chdir`, `fork`, `execvp`, `waitpid`);
* `int` variables are natural numbers guarded by `INT_MAX` where the program
  increments them without bound (`bufsize += ...`);
* the two loops whose number of iterations is not the length of a list the
  function recurses on (`while (token != NULL)`, `do ... while (status)`) carry
  an iteration budget; the budgets passed by the embedded functions are shown
  to suffice, so `Outcome.outOfFuel` never results from them;
* a child shares the open standard input with the shell: what the shell still
  has to read once a child has terminated is an answer of the system
  (`OS.stdin_after_child`), because the child may have read input, and because
  the `exit()` of line 119 moves the offset of a seekable input back over the
  bytes the shell has buffered and not yet used, which are then read again;
* every `waitpid` call that returns delivers a status.
-/

namespace BoothShell

/-- Contents of a C string: the characters before the terminating NUL. -/
abbrev Str := List Char

/-- The NUL character that terminates a C string. -/
def NUL : Char := Char.ofNat 0

/-- Largest value of a C `int` (32 bit). -/
def INT_MAX : Nat := 2147483647

/-- Value of `EXIT_SUCCESS`. -/
def EXIT_SUCCESS : Nat := 0

/-- Value of `EXIT_FAILURE`. -/
def EXIT_FAILURE : Nat := 1

/-- Child state reported by one `waitpid(pid, &status, WUNTRACED)` call. -/
inductive WaitStatus where
  | exited (code : Nat)
  | signaled (sig : Nat)
  | stopped (sig : Nat)
deriving DecidableEq, Repr

/-- The `WIFEXITED` test of `<sys/wait.h>`. -/
def WIFEXITED : WaitStatus → Bool
  | .exited _ => true
  | _ => false

/-- The `WIFSIGNALED` test of `<sys/wait.h>`. -/
def WIFSIGNALED : WaitStatus → Bool
  | .signaled _ => true
  | _ => false

/-- Externally visible actions of the process, in the order they happen. -/
inductive Event where
  | printf (text : String)
  | eprintf (text : String)
  | perror (tag : String)
  | system (command : String)
  | chdir (path : Str)
  | fork (pid : Int)
  | execvp (file : Str) (argv : List Str)
  | waitpid (pid : Int) (status : WaitStatus)
deriving DecidableEq, Repr

/-- State of the process environment that the program reads or changes. -/
structure World where
  stdin : List Char
  cwd : Str
  trace : List Event
deriving DecidableEq, Repr

/-- Append one action to the trace. -/
def World.emit (w : World) (e : Event) : World :=
  { w with trace := w.trace ++ [e] }

/-- Answers of the operating system and C library to the program's requests. -/
structure OS where
  /-- Value of `sizeof(char*)`. -/
  sizeof_ptr : Nat
  /-- Whether `malloc` of that many bytes succeeds. -/
  malloc : Nat → Bool
  /-- Whether `realloc` to that many bytes succeeds. -/
  realloc : Nat → Bool
  /-- On success of `chdir(path)`, the resulting working directory. -/
  chdir : World → Str → Option Str
  /-- Value returned by `fork()` in the process that runs the code. -/
  fork : World → Int
  /-- Whether `execvp` replaces the process image (it returns -1 otherwise). -/
  execvp : World → Str → List Str → Bool
  /-- Successive states reported by `waitpid` for the child; after the last one
  the call blocks for ever. -/
  waitpid : World → Int → List WaitStatus
  /-- Standard input the shell still has to read once the child has terminated,
  given the state in which the child was forked. -/
  stdin_after_child : World → Int → List Char

/-- Every allocation request is granted. -/
def OS.allocSucceeds (os : OS) : Prop :=
  ∀ n, os.malloc n = true ∧ os.realloc n = true

/-- No child changes what the shell still has to read from standard input. -/
def OS.childrenKeepStdin (os : OS) : Prop :=
  ∀ w pid, os.stdin_after_child w pid = w.stdin

/-- How the execution of a C function ends. -/
inductive Outcome (α : Type) where
  /-- The function returned a value. -/
  | ret (a : α) (w : World)
  /-- The process was terminated by `exit(code)`. -/
  | halt (code : Nat) (w : World)
  /-- The process image was replaced by a successful `execvp`. -/
  | execed (w : World)
  /-- The process is blocked for ever in `waitpid`. -/
  | blocked (w : World)
  /-- Undefined behaviour of the C program. -/
  | undefined
  /-- The iteration budget of the embedding ran out (never with the budgets
  used by the embedded functions). -/
  | outOfFuel
deriving DecidableEq, Repr

/-- Sequencing: continue with `k` when the first computation returned. -/
def Outcome.bind {α β : Type} (x : Outcome α) (k : α → World → Outcome β) : Outcome β :=
  match x with
  | .ret a w => k a w
  | .halt c w => .halt c w
  | .execed w => .execed w
  | .blocked w => .blocked w
  | .undefined => .undefined
  | .outOfFuel => .outOfFuel

/-- Memory block after `realloc(block, n cells)`: the old contents up to the
new size, followed by unwritten cells. -/
def realloc_cells {α : Type} (block : List (Option α)) (n : Nat) : List (Option α) :=
  block.take n ++ List.replicate (n - block.length) none

/-- The C string stored at the start of a character buffer; `none` when a
cell that was never written, or the end of the block, comes before a NUL. -/
def c_str : List (Option Char) → Option Str
  | [] => none
  | none :: _ => none
  | some c :: rest => if c = NUL then some [] else (c_str rest).map (c :: ·)

/-- The argument list stored in a token array: the entries before the first
`NULL`; `none` when an unwritten cell or the end of the block comes first. -/
def arg_list : List (Option (Option Str)) → Option (List Str)
  | [] => none
  | none :: _ => none
  | some none :: _ => some []
  | some (some t) :: rest => (arg_list rest).map (t :: ·)

/-! ## Builtin registry (lines 26-41) -/

/-- The array `builtin_str`. -/
def builtin_str : List Str :=
  ["cd".toList, "help".toList, "quit".toList, "exit".toList]

/-- The function `boothshell_num_builtins`:
`sizeof(builtin_str) / sizeof(char *)`. -/
def boothshell_num_builtins : Nat := builtin_str.length

/-! ## Builtin actions (lines 52-101) -/

/-- The usage message of `boothshell_cd`. -/
def cd_usage : String :=
  "Booth Shell: Use \"cd\" to change directories, such as \"cd /usr/bin\"\n"

/-- The function `boothshell_cd`.  `args[1] == NULL` is the one-element list;
the empty list is excluded by the caller (`args[0]` is "cd"). -/
def boothshell_cd (os : OS) (args : List Str) (w : World) : Outcome Int :=
  match args with
  | [] => .undefined
  | [_] => .ret 1 (w.emit (.eprintf cd_usage))
  | _ :: dir :: _ =>
    let w1 := w.emit (.chdir dir)
    match os.chdir w dir with
    | some d => .ret 1 { w1 with cwd := d }
    | none => .ret 1 (w1.emit (.perror "boothshell"))

/-- The function `boothshell_help`. -/
def boothshell_help (_os : OS) (_args : List Str) (w : World) : Outcome Int :=
  let w := w.emit (.system "tput clear")
  let w := w.emit (.printf "\n")
  let w := w.emit (.printf "Booth Shell\n")
  let w := w.emit (.printf "\n")
  let w := w.emit (.printf "Type program names and arguments, and hit enter.\n")
  let w := w.emit (.printf "\n")
  let w := w.emit (.printf "The following are built in:\n")
  let w := w.emit (.printf "\n")
  let w := (List.range boothshell_num_builtins).foldl
    (fun w i => w.emit (.printf ("  " ++ String.mk (builtin_str.getD i []) ++ "\n"))) w
  let w := w.emit (.printf "\n")
  let w := w.emit (.printf "Use the man command for information on other programs.\n")
  .ret 1 w

/-- The function `boothshell_exit`. -/
def boothshell_exit (_os : OS) (_args : List Str) (w : World) : Outcome Int :=
  .ret 0 w

/-- The function `boothshell_quit` (defined in the source, referenced nowhere). -/
def boothshell_quit (_os : OS) (_args : List Str) (w : World) : Outcome Int :=
  .ret 0 w

/-- The array `builtin_func`: three entries, one fewer than `builtin_str`. -/
def builtin_func : List (OS → List Str → World → Outcome Int) :=
  [boothshell_cd, boothshell_help, boothshell_exit]

/-! ## Process launcher (lines 108-131) -/

/-- The `do ... while (!WIFEXITED(status) && !WIFSIGNALED(status))` loop around
`waitpid`, over the states the child will report. -/
def wait_loop (pid : Int) : List WaitStatus → World → Outcome Unit
  | [], w => .blocked w
  | status :: later, w =>
    let w1 := w.emit (.waitpid pid status)
    if !WIFEXITED status && !WIFSIGNALED status then wait_loop pid later w1
    else .ret () w1

/-- The function `boothshell_launch`.  In the parent, once the child is
reported terminated, standard input is what the system says is left of it. -/
def boothshell_launch (os : OS) (args : List Str) (w : World) : Outcome Int :=
  let pid := os.fork w
  let w1 := w.emit (.fork pid)
  if pid = 0 then
    -- Child process
    match args with
    | [] => .undefined
    | file :: _ =>
      let w2 := w1.emit (.execvp file args)
      if os.execvp w1 file args then .execed w2
      else .halt EXIT_FAILURE (w2.emit (.perror "boothshell"))
  else if pid < 0 then
    -- Error forking
    .ret 1 (w1.emit (.perror "boothshell"))
  else
    -- Parent process
    (wait_loop pid (os.waitpid w1 pid) w1).bind
      (fun _ w2 => .ret 1 { w2 with stdin := os.stdin_after_child w1 pid })

/-! ## Dispatcher (lines 138-154) -/

/-- The `for` loop of `boothshell_execute` from index `i`, with `todo`
iterations left before `i` reaches `boothshell_num_builtins()`. -/
def execute_scan (os : OS) (args : List Str) (arg0 : Str) (w : World) :
    (todo : Nat) → (i : Nat) → Outcome Int
  | 0, _ => boothshell_launch os args w
  | todo + 1, i =>
    match builtin_str[i]? with
    | none => .undefined
    | some name =>
      -- strcmp(args[0], builtin_str[i]) == 0
      if arg0 = name then
        match builtin_func[i]? with
        | none => .undefined
        | some action => action os args w
      else execute_scan os args arg0 w todo (i + 1)

/-- The function `boothshell_execute`. -/
def boothshell_execute (os : OS) (args : List Str) (w : World) : Outcome Int :=
  match args with
  | [] =>
    -- An empty command was entered.
    .ret 1 w
  | arg0 :: _ => execute_scan os args arg0 w boothshell_num_builtins 0

/-! ## Line reader (lines 156-197) -/

/-- The constant `BOOTHSHELL_RL_BUFSIZE`. -/
def BOOTHSHELL_RL_BUFSIZE : Nat := 1024

/-- The `while (1)` loop of `boothshell_read_line` over the characters that
`getchar` will deliver; the empty list is end of file. -/
def read_line_loop (os : OS) (w : World) :
    (input : List Char) → (bufsize position : Nat) → (buffer : List (Option Char)) →
    Outcome (List (Option Char))
  | [], _, _, _ => .halt EXIT_SUCCESS { w with stdin := [] }
  | c :: rest, bufsize, position, buffer =>
    if c = '\n' then
      if position < buffer.length then
        .ret (buffer.set position (some NUL)) { w with stdin := rest }
      else .undefined
    else if position < buffer.length then
      let buffer1 := buffer.set position (some c)
      let position1 := position + 1
      -- If we have exceeded the buffer, reallocate.
      if position1 ≥ bufsize then
        if bufsize + BOOTHSHELL_RL_BUFSIZE > INT_MAX then .undefined
        else
          let bufsize1 := bufsize + BOOTHSHELL_RL_BUFSIZE
          if os.realloc bufsize1 then
            read_line_loop os w rest bufsize1 position1 (realloc_cells buffer1 bufsize1)
          else
            .halt EXIT_FAILURE
              ({ w with stdin := rest }.emit (.eprintf "Booth Shell: allocation error\n"))
      else read_line_loop os w rest bufsize position1 buffer1
    else .undefined

/-- The function `boothshell_read_line`; it returns the buffer. -/
def boothshell_read_line (os : OS) (w : World) : Outcome (List (Option Char)) :=
  let bufsize := BOOTHSHELL_RL_BUFSIZE
  if os.malloc bufsize then
    read_line_loop os w w.stdin bufsize 0 (List.replicate bufsize none)
  else .halt EXIT_FAILURE (w.emit (.eprintf "Booth Shell: allocation error\n"))

/-! ## Tokenizer (lines 199-237) -/

/-- The constant `BOOTHSHELL_TOK_BUFSIZE`. -/
def BOOTHSHELL_TOK_BUFSIZE : Nat := 64

/-- The constant `BOOTHSHELL_TOK_DELIM`, the string `" \t\r\n\a"`. -/
def BOOTHSHELL_TOK_DELIM : Str := [' ', '\t', '\r', '\n', Char.ofNat 7]

/-- The C library function `strtok` (ISO C 7.24.5.8).  `s` is the first
argument (`none` for `NULL`), `save` the position remembered by the previous
call; the result is the token (`none` for `NULL`) and the position remembered
for the next call.  Positions are the characters from there to the end of the
string. -/
def strtok (s : Option Str) (delim : Str) (save : Str) : Option Str × Str :=
  let start := (s.getD save).dropWhile (fun c => delim.contains c)
  match start with
  | [] => (none, [])
  | _ :: _ =>
    let token := start.takeWhile (fun c => !delim.contains c)
    match start.dropWhile (fun c => !delim.contains c) with
    | [] => (some token, [])
    | _ :: after => (some token, after)

/-- The `while (token != NULL)` loop of `boothshell_split_line` and the store
of the final `NULL`; `fuel` bounds the number of loop tests. -/
def split_line_loop (os : OS) (w : World) :
    (fuel : Nat) → (token : Option Str) → (save : Str) → (bufsize position : Nat) →
    (tokens : List (Option (Option Str))) → Outcome (List (Option (Option Str)))
  | 0, _, _, _, _, _ => .outOfFuel
  | _ + 1, none, _, _, position, tokens =>
    if position < tokens.length then .ret (tokens.set position (some none)) w
    else .undefined
  | fuel + 1, some tok, save, bufsize, position, tokens =>
    if position < tokens.length then
      let tokens1 := tokens.set position (some (some tok))
      let position1 := position + 1
      if position1 ≥ bufsize then
        if bufsize + BOOTHSHELL_TOK_BUFSIZE > INT_MAX then .undefined
        else
          let bufsize1 := bufsize + BOOTHSHELL_TOK_BUFSIZE
          if os.realloc (bufsize1 * os.sizeof_ptr) then
            let next := strtok none BOOTHSHELL_TOK_DELIM save
            split_line_loop os w fuel next.1 next.2 bufsize1 position1
              (realloc_cells tokens1 bufsize1)
          else .halt EXIT_FAILURE (w.emit (.eprintf "Booth Shell: allocation error\n"))
      else
        let next := strtok none BOOTHSHELL_TOK_DELIM save
        split_line_loop os w fuel next.1 next.2 bufsize position1 tokens1
    else .undefined

/-- The function `boothshell_split_line`.  `line` is the memory the pointer
refers to; the string ends at its first NUL. -/
def boothshell_split_line (os : OS) (line : List Char) (w : World) :
    Outcome (List (Option (Option Str))) :=
  let bufsize := BOOTHSHELL_TOK_BUFSIZE
  if os.malloc (bufsize * os.sizeof_ptr) then
    let str := line.takeWhile (fun c => c != NUL)
    let first := strtok (some str) BOOTHSHELL_TOK_DELIM []
    split_line_loop os w (str.length + 1) first.1 first.2 bufsize 0
      (List.replicate bufsize none)
  else .halt EXIT_FAILURE (w.emit (.eprintf "Booth Shell: allocation error\n"))

/-! ## Main loop (lines 242-282) -/

/-- One pass through the body of the `do ... while (status)` loop, up to the
value of `status`. -/
def loop_body (os : OS) (w : World) : Outcome Int :=
  let w1 := w.emit (.printf "> ")
  (boothshell_read_line os w1).bind fun line w2 =>
    match c_str line with
    | none => .undefined
    | some str =>
      (boothshell_split_line os str w2).bind fun args w3 =>
        match arg_list args with
        | none => .undefined
        | some argv => boothshell_execute os argv w3

/-- The `do ... while (status)` loop with a bound on the number of passes. -/
def loop_passes (os : OS) : (fuel : Nat) → World → Outcome Unit
  | 0, _ => .outOfFuel
  | fuel + 1, w =>
    (loop_body os w).bind fun status w1 =>
      if status ≠ 0 then loop_passes os fuel w1 else .ret () w1

/-- The function `boothshell_loop`.  Every pass that returns consumes at least
one character of standard input, hence the bound. -/
def boothshell_loop (os : OS) (w : World) : Outcome Unit :=
  loop_passes os (w.stdin.length + 1) w

/-- Membership in the delimiter set of the tokenizer: space, tab, carriage
return, newline, bell. -/
def is_delimiter (c : Char) : Bool :=
  c = ' ' || c = '\t' || c = '\r' || c = '\n' || c = Char.ofNat 7

/-- The maximal non-empty runs of non-delimiter characters of a line, from left
to right: the line is cut at every delimiter and the empty pieces are dropped. -/
def maximal_runs (line : List Char) : List Str :=
  (line.splitOnP is_delimiter).filter (fun piece => !piece.isEmpty)

/-- Tokens still to be stored by the loop of `boothshell_split_line` when the
current token is `token` and `strtok` remembers the position `save`. -/
def pending_tokens (token : Option Str) (save : Str) : List Str :=
  match token with
  | none => []
  | some t => t :: maximal_runs save

/-- Tokenize a line and dispatch the resulting argument list. -/
def dispatch_line (os : OS) (line : List Char) (w : World) : Outcome Int :=
  (boothshell_split_line os line w).bind fun args w1 =>
    match arg_list args with
    | none => .undefined
    | some argv => boothshell_execute os argv w1

/-- The input stream made of the given lines, each followed by a newline. -/
def unlines : List (List Char) → List Char
  | [] => []
  | line :: more => line ++ '\n' :: unlines more

/-- The main loop as the state machine of the specification, over the complete
lines of the input (`tail` is what follows the last newline): while RUNNING,
print the prompt, take the next line, tokenize and dispatch it, and stop when
the dispatch returned 0.  When no complete line is left the line reader
terminates the process; `tail` is never dispatched. -/
def run_lines (os : OS) (tail : List Char) : List (List Char) → World → Outcome Unit
  | [], w => .halt EXIT_SUCCESS { w with stdin := [], trace := w.trace ++ [.printf "> "] }
  | line :: more, w =>
    (dispatch_line os line
        { w with stdin := unlines more ++ tail, trace := w.trace ++ [.printf "> "] }).bind
      fun status w1 => if status ≠ 0 then run_lines os tail more w1 else .ret () w1

/-! ## Sample environment used to instantiate the theorems -/

/-- An operating system that grants every allocation, knows the single
directory `/tmp`, forks child 42 and reports it stopped once and then exited
with status 3; its children leave standard input alone. -/
def os_demo : OS where
  sizeof_ptr := 8
  malloc := fun _ => true
  realloc := fun _ => true
  chdir := fun _ path => if path = "/tmp".toList then some path else none
  fork := fun _ => 42
  execvp := fun _ _ _ => true
  waitpid := fun _ _ => [.stopped 19, .exited 3]
  stdin_after_child := fun w _ => w.stdin

/-- A process state with empty input, in the root directory. -/
def w_demo : World := { stdin := [], cwd := "/".toList, trace := [] }

/-- A process state whose input holds three complete lines. -/
def w_lines : World :=
  { stdin := "ls -la\nquit\nfoo\n".toList, cwd := "/".toList, trace := [] }

/-- The answers of a system to a run of the shell on the two-line regular file
of `w_two_commands`, which the first `getchar` reads into the buffer in one
block, when no program is found: every child is forked as 42, `execvp` fails
and the child ends in the `exit(EXIT_FAILURE)` of line 119.  When the first
child is forked (the trace holds the first prompt and the fork) the second line
is in the buffer, unread, so that child's `exit()` moves the shared file offset
back over it and the shell reads it a second time after the buffered copy; the
later children are forked with nothing unread in the buffer and change
nothing. -/
def os_rewind : OS where
  sizeof_ptr := 8
  malloc := fun _ => true
  realloc := fun _ => true
  chdir := fun _ _ => none
  fork := fun _ => 42
  execvp := fun _ _ _ => false
  waitpid := fun _ _ => [.exited 1]
  stdin_after_child := fun w _ => if w.trace.length = 2 then w.stdin ++ w.stdin else w.stdin

/-- A process state whose input holds two command lines. -/
def w_two_commands : World :=
  { stdin := "foo\nbar\n".toList, cwd := "/".toList, trace := [] }

/-- A line of `INT_MAX - 1023` characters, the capacity of the line buffer
after its last possible growth. -/
def long_line : List Char := List.replicate 2147482624 'a'

/-- A process state whose input is that line, terminated by a newline. -/
def w_long_line : World :=
  { stdin := long_line ++ ['\n'], cwd := "/".toList, trace := [] }

theorem execute_scan_no_match (os : OS) (args : List Str) (arg0 : Str) (w : World)
    (hname : arg0 ∉ builtin_str) :
    execute_scan os args arg0 w boothshell_num_builtins 0 = boothshell_launch os args w := by
  simp [builtin_str] at hname
  obtain ⟨h1, h2, h3, h4⟩ := hname
  simp [boothshell_num_builtins, builtin_str, execute_scan, h1, h2, h3, h4]

theorem wait_loop_returns (pid : Int) (reports : List WaitStatus) (w : World)
    (hterm : ∃ s ∈ reports, WIFEXITED s = true ∨ WIFSIGNALED s = true) :
    ∃ seen : List WaitStatus, wait_loop pid reports w
      = .ret () { w with trace := w.trace ++ seen.map (Event.waitpid pid) } := by
  induction reports generalizing w with
  | nil => simp at hterm
  | cons s later ih =>
    by_cases hs : WIFEXITED s = true ∨ WIFSIGNALED s = true
    · refine ⟨[s], ?_⟩
      rcases hs with hs | hs <;> simp [wait_loop, hs, World.emit]
    · have hs1 : WIFEXITED s = false := by simpa using fun h => hs (Or.inl h)
      have hs2 : WIFSIGNALED s = false := by simpa using fun h => hs (Or.inr h)
      have hlater : ∃ s ∈ later, WIFEXITED s = true ∨ WIFSIGNALED s = true := by
        obtain ⟨t, ht, hprop⟩ := hterm
        rcases List.mem_cons.mp ht with rfl | ht
        · exact absurd hprop hs
        · exact ⟨t, ht, hprop⟩
      obtain ⟨seen, hseen⟩ := ih (w.emit (.waitpid pid s)) hlater
      refine ⟨s :: seen, ?_⟩
      simp only [World.emit, List.append_assoc, List.singleton_append] at hseen
      simp [wait_loop, hs1, hs2, hseen, World.emit]

theorem launch_ret_one (os : OS) (args : List Str) (w : World) (v : Int) (w' : World)
    (h : boothshell_launch os args w = .ret v w') : v = 1 := by
  unfold boothshell_launch at h
  simp only at h
  split at h
  · split at h
    · cases h
    · split at h <;> cases h
  · split at h
    · cases h; rfl
    · cases hw : wait_loop (os.fork w) (os.waitpid (w.emit (.fork (os.fork w))) (os.fork w))
          (w.emit (.fork (os.fork w))) <;>
        rw [hw] at h <;> simp [Outcome.bind] at h
      exact h.1.symm

/-- C2 (the code departs from the claim): when the first token is "exit" the
scan matches entry 3 of `builtin_str`, but `builtin_func` has only the three
entries 0..2, so the dispatcher reads the action table out of bounds instead of
finding a bound action; the behaviour is undefined, for every further
argument list and every environment. -/
theorem exit_reads_past_builtin_func :
    builtin_str[3]? = some "exit".toList ∧ builtin_func.length = 3 ∧
    ∀ (os : OS) (rest : List Str) (w : World),
      boothshell_execute os ("exit".toList :: rest) w = .undefined := by
  refine ⟨by decide, rfl, ?_⟩
  intro os rest w
  simp [boothshell_execute, boothshell_num_builtins, builtin_str, execute_scan, builtin_func]

/-- C3: when the first token is "quit", whatever the further arguments,
`boothshell_execute` returns 0 ("stop") and leaves the process state exactly as
it was: nothing is added to the trace (no fork, no execvp, no chdir) and the
working directory is the same. -/
theorem quit_stops (os : OS) (rest : List Str) (w : World) :
    boothshell_execute os ("quit".toList :: rest) w = .ret 0 w := by
  simp [boothshell_execute, boothshell_num_builtins, builtin_str, execute_scan, builtin_func,
    boothshell_exit]

/-- C4: when the first token is none of the names of `builtin_str`,
`boothshell_execute` is exactly one call of `boothshell_launch` on the same
argument list; whenever it returns, it returns 1; if fork fails it returns 1
after reporting the error; in the parent, once the child is reported exited or
killed (whatever the status), it returns 1, the only actions performed are the
fork and the waitpid calls, and standard input is what the system left of it;
in the child the unchanged argument list is handed to execvp. -/
theorem execute_launches_unknown_command (os : OS) (arg0 : Str) (rest : List Str) (w : World)
    (hname : arg0 ∉ builtin_str) :
    boothshell_execute os (arg0 :: rest) w = boothshell_launch os (arg0 :: rest) w ∧
    (∀ v w', boothshell_execute os (arg0 :: rest) w = .ret v w' → v = 1) ∧
    (os.fork w < 0 →
      boothshell_execute os (arg0 :: rest) w
        = .ret 1 { w with trace := w.trace ++ [.fork (os.fork w), .perror "boothshell"] }) ∧
    (0 < os.fork w →
      (∃ s ∈ os.waitpid (w.emit (.fork (os.fork w))) (os.fork w),
          WIFEXITED s = true ∨ WIFSIGNALED s = true) →
      ∃ seen : List WaitStatus, boothshell_execute os (arg0 :: rest) w
        = .ret 1 { w with
            stdin := os.stdin_after_child (w.emit (.fork (os.fork w))) (os.fork w)
            trace := w.trace ++ .fork (os.fork w) :: seen.map (Event.waitpid (os.fork w)) }) ∧
    (os.fork w = 0 →
      boothshell_execute os (arg0 :: rest) w
        = if os.execvp (w.emit (.fork 0)) arg0 (arg0 :: rest) then
            .execed { w with trace := w.trace ++ [.fork 0, .execvp arg0 (arg0 :: rest)] }
          else
            .halt EXIT_FAILURE { w with
              trace := w.trace ++ [.fork 0, .execvp arg0 (arg0 :: rest), .perror "boothshell"] }) := by
  have hexec : boothshell_execute os (arg0 :: rest) w = boothshell_launch os (arg0 :: rest) w :=
    execute_scan_no_match os (arg0 :: rest) arg0 w hname
  refine ⟨hexec, ?_, ?_, ?_, ?_⟩
  · intro v w' h
    exact launch_ret_one os (arg0 :: rest) w v w' (hexec ▸ h)
  · intro hneg
    have hne : os.fork w ≠ 0 := by omega
    rw [hexec]
    simp [boothshell_launch, hne, hneg, World.emit]
  · intro hpos hterm
    have hne : os.fork w ≠ 0 := by omega
    have hnn : ¬ os.fork w < 0 := by omega
    obtain ⟨seen, hseen⟩ := wait_loop_returns (os.fork w) _ (w.emit (.fork (os.fork w))) hterm
    refine ⟨seen, ?_⟩
    rw [hexec]
    simp only [World.emit, List.append_assoc, List.singleton_append] at hseen
    simp [boothshell_launch, hne, hnn, World.emit, hseen, Outcome.bind]
  · intro hzero
    rw [hexec]
    simp [boothshell_launch, hzero, World.emit]

/-- Witness for C4 with the command "echo hello": the child is stopped once
and then exits with status 3, and the dispatcher returns 1. -/
theorem execute_launches_unknown_command_witness :
    "CD".toList ∉ builtin_str ∧ "Exit".toList ∉ builtin_str ∧ "cdx".toList ∉ builtin_str ∧
    "echo".toList ∉ builtin_str ∧ 0 < os_demo.fork w_demo ∧
    ∃ seen : List WaitStatus,
      boothshell_execute os_demo ["echo".toList, "hello".toList] w_demo
        = .ret 1 { w_demo with
            stdin := os_demo.stdin_after_child (w_demo.emit (.fork (os_demo.fork w_demo))) (os_demo.fork w_demo)
            trace := w_demo.trace ++ .fork (os_demo.fork w_demo) :: seen.map (Event.waitpid (os_demo.fork w_demo)) } :=
  ⟨by decide, by decide, by decide, by decide, by decide,
   (execute_launches_unknown_command os_demo "echo".toList ["hello".toList] w_demo
      (by decide)).2.2.2.1 (by decide) ⟨.exited 3, by decide, Or.inl rfl⟩⟩

/-- C9: `boothshell_cd` always returns 1.  With no second token it writes the
usage message to standard error and issues no chdir, so the working directory
is unchanged; with a second token it issues one chdir, to that token, whatever
follows: on success the working directory is the one the system resolved for
it; on failure perror reports the error and the working directory is unchanged.
The dispatcher routes every argument list starting with "cd" to it. -/
theorem cd_changes_directory (os : OS) (w : World) :
    boothshell_cd os ["cd".toList] w
      = .ret 1 { w with trace := w.trace ++ [.eprintf cd_usage] } ∧
    (∀ (dir : Str) (more : List Str) (d : Str), os.chdir w dir = some d →
      boothshell_cd os ("cd".toList :: dir :: more) w
        = .ret 1 { w with cwd := d, trace := w.trace ++ [.chdir dir] }) ∧
    (∀ (dir : Str) (more : List Str), os.chdir w dir = none →
      boothshell_cd os ("cd".toList :: dir :: more) w
        = .ret 1 { w with trace := w.trace ++ [.chdir dir, .perror "boothshell"] }) ∧
    (∀ rest : List Str, boothshell_execute os ("cd".toList :: rest) w
        = boothshell_cd os ("cd".toList :: rest) w) := by
  refine ⟨by simp [boothshell_cd, World.emit], ?_, ?_, ?_⟩
  · intro dir more d h
    simp [boothshell_cd, World.emit, h]
  · intro dir more h
    simp [boothshell_cd, World.emit, h]
  · intro rest
    simp [boothshell_execute, boothshell_num_builtins, builtin_str, execute_scan, builtin_func]

/-- Witness for C9: "cd /tmp" succeeds in the sample environment and the working
directory becomes "/tmp". -/
theorem cd_changes_directory_witness :
    os_demo.chdir w_demo "/tmp".toList = some "/tmp".toList ∧
    boothshell_cd os_demo ["cd".toList, "/tmp".toList] w_demo
      = .ret 1 { w_demo with cwd := "/tmp".toList,
                             trace := w_demo.trace ++ [.chdir "/tmp".toList] } :=
  ⟨by decide,
   (cd_changes_directory os_demo w_demo).2.1 "/tmp".toList [] "/tmp".toList (by decide)⟩

/-! ## Memory blocks -/

theorem set_take_succ {α : Type} (l : List α) (i : Nat) (a : α) (h : i < l.length) :
    (l.set i a).take (i + 1) = l.take i ++ [a] := by
  induction l generalizing i with
  | nil => simp at h
  | cons x xs ih =>
    cases i with
    | zero => simp
    | succ j =>
      simp only [List.length_cons, Nat.add_lt_add_iff_right] at h
      simp [ih j h]

theorem realloc_cells_length {α : Type} (block : List (Option α)) (n : Nat) :
    (realloc_cells block n).length = n := by
  simp [realloc_cells]; omega

theorem realloc_cells_take {α : Type} (block : List (Option α)) (n k : Nat)
    (hk : k ≤ block.length) (hn : k ≤ n) :
    (realloc_cells block n).take k = block.take k := by
  simp [realloc_cells, List.take_append_eq_append_take, List.take_take, hn, Nat.min_eq_left hn]
  omega

/-! ## Line reader -/

theorem read_line_loop_chars (os : OS) (w : World) (hre : ∀ n, os.realloc n = true)
    (line tail : List Char) (hnl : '\n' ∉ line) :
    ∀ (position : Nat) (buffer : List (Option Char)),
      position < buffer.length →
      buffer.length = BOOTHSHELL_RL_BUFSIZE * (position / BOOTHSHELL_RL_BUFSIZE + 1) →
      position + line.length + BOOTHSHELL_RL_BUFSIZE ≤ INT_MAX →
      ∃ buffer1 : List (Option Char),
        read_line_loop os w (line ++ tail) buffer.length position buffer
          = read_line_loop os w tail buffer1.length (position + line.length) buffer1 ∧
        buffer1.length
          = BOOTHSHELL_RL_BUFSIZE * ((position + line.length) / BOOTHSHELL_RL_BUFSIZE + 1) ∧
        buffer1.take (position + line.length) = buffer.take position ++ line.map some := by
  induction line with
  | nil =>
    intro position buffer _ hcap _
    exact ⟨buffer, by simp, by simpa using hcap, by simp⟩
  | cons c cs ih =>
    intro position buffer hpos hcap hmax
    have hc : c ≠ '\n' := fun h => hnl (h ▸ List.mem_cons_self _ _)
    have hcs : '\n' ∉ cs := fun h => hnl (List.mem_cons_of_mem _ h)
    simp only [BOOTHSHELL_RL_BUFSIZE, List.length_cons] at hcap hmax ⊢
    by_cases hgrow : position + 1 ≥ buffer.length
    · have hlen2 : (realloc_cells (buffer.set position (some c)) (buffer.length + 1024)).length
          = buffer.length + 1024 := realloc_cells_length _ _
      obtain ⟨b1, h1, h2, h3⟩ := ih hcs (position + 1)
        (realloc_cells (buffer.set position (some c)) (buffer.length + 1024))
        (by rw [hlen2]; omega)
        (by rw [hlen2]; simp only [BOOTHSHELL_RL_BUFSIZE]; omega)
        (by simp only [BOOTHSHELL_RL_BUFSIZE]; omega)
      refine ⟨b1, ?_, ?_, ?_⟩
      · rw [hlen2] at h1
        have hov : ¬ (buffer.length + 1024 > INT_MAX) := by omega
        simp only [List.cons_append, read_line_loop, hc, if_false, hpos, if_true, hgrow,
          BOOTHSHELL_RL_BUFSIZE, hov, hre]
        have e : position + 1 + cs.length = position + (cs.length + 1) := by omega
        rw [e] at h1
        exact h1
      · simp only [BOOTHSHELL_RL_BUFSIZE] at h2
        rw [h2]; congr 2; omega
      · have : position + (cs.length + 1) = position + 1 + cs.length := by omega
        rw [this, h3, realloc_cells_take _ _ _ (by simp; omega) (by omega),
          set_take_succ _ _ _ hpos]
        simp
    · have hlen2 : (buffer.set position (some c)).length = buffer.length := by simp
      obtain ⟨b1, h1, h2, h3⟩ := ih hcs (position + 1) (buffer.set position (some c))
        (by rw [hlen2]; omega)
        (by rw [hlen2]; simp only [BOOTHSHELL_RL_BUFSIZE]; omega)
        (by simp only [BOOTHSHELL_RL_BUFSIZE]; omega)
      refine ⟨b1, ?_, ?_, ?_⟩
      · rw [hlen2] at h1
        simp only [List.cons_append, read_line_loop, hc, if_false, hpos, if_true, hgrow]
        have e : position + 1 + cs.length = position + (cs.length + 1) := by omega
        rw [e] at h1
        exact h1
      · simp only [BOOTHSHELL_RL_BUFSIZE] at h2
        rw [h2]; congr 2; omega
      · have : position + (cs.length + 1) = position + 1 + cs.length := by omega
        rw [this, h3, set_take_succ _ _ _ hpos]
        simp

theorem c_str_of_chars (line : List Char) (tail : List (Option Char)) :
    c_str (line.map some ++ some NUL :: tail) = some (line.takeWhile (fun c => c != NUL)) := by
  induction line with
  | nil => simp [c_str]
  | cons c cs ih =>
    by_cases hc : c = NUL
    · simp [c_str, hc]
    · simp [c_str, hc, ih, List.takeWhile_cons]

theorem read_line_newline (os : OS) (w : World) (line rest : List Char)
    (halloc : os.allocSucceeds) (hnl : '\n' ∉ line) (hstdin : w.stdin = line ++ '\n' :: rest)
    (hlen : line.length + BOOTHSHELL_RL_BUFSIZE ≤ INT_MAX) :
    ∃ buffer : List (Option Char),
      boothshell_read_line os w = .ret buffer { w with stdin := rest } ∧
      buffer.length = BOOTHSHELL_RL_BUFSIZE * (line.length / BOOTHSHELL_RL_BUFSIZE + 1) ∧
      buffer.take (line.length + 1) = line.map some ++ [some NUL] := by
  obtain ⟨b1, h1, h2, h3⟩ := read_line_loop_chars os w (fun n => (halloc n).2) line
    ('\n' :: rest) hnl 0 (List.replicate BOOTHSHELL_RL_BUFSIZE none)
    (by rw [List.length_replicate]; decide)
    (by simp only [List.length_replicate, Nat.zero_div, Nat.zero_add, Nat.mul_one])
    (by omega)
  simp only [List.length_replicate, Nat.zero_add, List.take_zero, List.nil_append] at h1 h2 h3
  have hpos : line.length < b1.length := by
    rw [h2]; simp only [BOOTHSHELL_RL_BUFSIZE]; omega
  refine ⟨b1.set line.length (some NUL), ?_, by simpa using h2, ?_⟩
  · simp only [boothshell_read_line, (halloc _).1, if_true, hstdin, h1]
    simp [read_line_loop, hpos]
  · have := set_take_succ b1 line.length (some NUL) hpos
    rw [this, h3]

theorem read_line_no_newline (os : OS) (w : World)
    (halloc : os.allocSucceeds) (hnl : '\n' ∉ w.stdin)
    (hlen : w.stdin.length + BOOTHSHELL_RL_BUFSIZE ≤ INT_MAX) :
    boothshell_read_line os w = .halt EXIT_SUCCESS { w with stdin := [] } := by
  obtain ⟨b1, h1, _, _⟩ := read_line_loop_chars os w (fun n => (halloc n).2) w.stdin
    [] hnl 0 (List.replicate BOOTHSHELL_RL_BUFSIZE none)
    (by rw [List.length_replicate]; decide)
    (by simp only [List.length_replicate, Nat.zero_div, Nat.zero_add, Nat.mul_one])
    (by omega)
  simp only [List.length_replicate, List.append_nil] at h1
  simp only [boothshell_read_line, (halloc _).1, if_true, h1]
  simp [read_line_loop]

theorem long_line_split : long_line = List.replicate 2147482623 'a' ++ ['a'] := by
  have h : (2147482624 : Nat) = 2147482623 + 1 := by norm_num
  unfold long_line
  rw [h, List.replicate_succ']

theorem read_line_overflow (os : OS) (w : World) (halloc : os.allocSucceeds)
    (tail : List Char) (hstdin : w.stdin = long_line ++ tail) :
    boothshell_read_line os w = .undefined := by
  have hnl : '\n' ∉ List.replicate 2147482623 'a' := by
    intro h
    have := List.eq_of_mem_replicate h
    exact absurd this (by decide)
  obtain ⟨b1, h1, h2, _⟩ := read_line_loop_chars os w (fun n => (halloc n).2)
    (List.replicate 2147482623 'a') ('a' :: tail) hnl 0
    (List.replicate BOOTHSHELL_RL_BUFSIZE none)
    (by rw [List.length_replicate]; decide)
    (by simp only [List.length_replicate, Nat.zero_div, Nat.zero_add, Nat.mul_one])
    (by rw [List.length_replicate]; decide)
  rw [List.length_replicate, List.length_replicate] at h1
  rw [List.length_replicate] at h2
  have hcap : b1.length = 2147482624 := by rw [h2]; decide
  have hin : w.stdin = List.replicate 2147482623 'a' ++ 'a' :: tail := by
    rw [hstdin, long_line_split, List.append_assoc]; rfl
  unfold boothshell_read_line
  rw [if_pos (halloc _).1, hin, h1, hcap]
  have hc : ('a' : Char) ≠ '\n' := by decide
  have hpos : 0 + 2147482623 < b1.length := by omega
  have hge : 0 + 2147482623 + 1 ≥ 2147482624 := by omega
  have hov : 2147482624 + BOOTHSHELL_RL_BUFSIZE > INT_MAX := by decide
  unfold read_line_loop
  rw [if_neg hc, if_pos hpos]
  simp only
  rw [if_pos hge, if_pos hov]

theorem loop_undefined_of_read_line (os : OS) (w : World)
    (h : boothshell_read_line os (w.emit (.printf "> ")) = .undefined) :
    boothshell_loop os w = .undefined := by
  simp only [boothshell_loop, loop_passes, loop_body, h, Outcome.bind]

theorem long_line_no_newline : '\n' ∉ long_line := by
  intro h
  exact absurd (List.eq_of_mem_replicate h) (by decide)

/-! ## Tokenizer -/

theorem delim_contains (c : Char) : BOOTHSHELL_TOK_DELIM.contains c = is_delimiter c := by
  simp [BOOTHSHELL_TOK_DELIM, is_delimiter, Bool.or_assoc]

theorem maximal_runs_nil : maximal_runs [] = [] := by
  simp [maximal_runs, List.splitOnP_nil]

theorem maximal_runs_delim (c : Char) (l : List Char) (hc : is_delimiter c = true) :
    maximal_runs (c :: l) = maximal_runs l := by
  simp [maximal_runs, List.splitOnP_cons, hc]

theorem maximal_runs_dropWhile (l : List Char) :
    maximal_runs (l.dropWhile is_delimiter) = maximal_runs l := by
  induction l with
  | nil => rfl
  | cons c cs ih =>
    by_cases hc : is_delimiter c = true
    · rw [List.dropWhile_cons_of_pos hc, ih, maximal_runs_delim c cs hc]
    · rw [List.dropWhile_cons_of_neg hc]

theorem maximal_runs_single (tok : List Char) (hne : tok ≠ [])
    (hfree : ∀ c ∈ tok, ¬ is_delimiter c = true) : maximal_runs tok = [tok] := by
  simp [maximal_runs, List.splitOnP_eq_single is_delimiter tok hfree, hne]

theorem maximal_runs_first (tok : List Char) (d : Char) (rest : List Char) (hne : tok ≠ [])
    (hfree : ∀ c ∈ tok, ¬ is_delimiter c = true) (hd : is_delimiter d = true) :
    maximal_runs (tok ++ d :: rest) = tok :: maximal_runs rest := by
  simp [maximal_runs, List.splitOnP_first is_delimiter tok hfree d hd rest, hne]

theorem delim_fun_eq : (fun c => BOOTHSHELL_TOK_DELIM.contains c) = is_delimiter :=
  funext delim_contains

theorem not_delim_fun_eq :
    (fun c => !BOOTHSHELL_TOK_DELIM.contains c) = (fun c => !is_delimiter c) :=
  funext fun c => by rw [delim_contains]

theorem strtok_first_call (str save : Str) :
    strtok (some str) BOOTHSHELL_TOK_DELIM save = strtok none BOOTHSHELL_TOK_DELIM str := by
  simp [strtok]

theorem strtok_null (save : Str)
    (h : (strtok none BOOTHSHELL_TOK_DELIM save).1 = none) : maximal_runs save = [] := by
  rw [← maximal_runs_dropWhile]
  simp only [strtok, Option.getD_none, delim_fun_eq, not_delim_fun_eq] at h
  cases hstart : save.dropWhile is_delimiter with
  | nil => exact maximal_runs_nil
  | cons x xs =>
    rw [hstart] at h
    simp only at h
    split at h <;> simp at h

theorem strtok_token (save : Str) (t : Str)
    (h : (strtok none BOOTHSHELL_TOK_DELIM save).1 = some t) :
    maximal_runs save = t :: maximal_runs (strtok none BOOTHSHELL_TOK_DELIM save).2 ∧
    (strtok none BOOTHSHELL_TOK_DELIM save).2.length < save.length ∧
    t ≠ [] ∧ ∀ c ∈ t, ¬ is_delimiter c = true := by
  rw [← maximal_runs_dropWhile]
  have hsuf : (save.dropWhile is_delimiter).length ≤ save.length :=
    (List.dropWhile_sublist is_delimiter).length_le
  simp only [strtok, Option.getD_none, delim_fun_eq, not_delim_fun_eq] at h ⊢
  cases hstart : save.dropWhile is_delimiter with
  | nil => rw [hstart] at h; simp at h
  | cons x xs =>
    rw [hstart] at h hsuf
    simp only at h ⊢
    have hx : ¬ is_delimiter x = true := by
      have := List.head_dropWhile_not is_delimiter save (by rw [hstart]; simp)
      simpa [hstart] using this
    have hfree : ∀ c ∈ (x :: xs).takeWhile (fun c => !is_delimiter c), ¬ is_delimiter c = true := by
      intro c hc
      simpa using List.mem_takeWhile_imp hc
    have hne : (x :: xs).takeWhile (fun c => !is_delimiter c) ≠ [] := by
      simp [List.takeWhile_cons, hx]
    have hsplit := List.takeWhile_append_dropWhile (fun c => !is_delimiter c) (x :: xs)
    cases hrest : (x :: xs).dropWhile (fun c => !is_delimiter c) with
    | nil =>
      rw [hrest] at h hsplit
      simp only [Option.some.injEq] at h
      subst h
      simp only [List.append_nil] at hsplit
      refine ⟨?_, by simp at hsuf ⊢; omega, hne, hfree⟩
      rw [maximal_runs_nil]
      conv_lhs => rw [← hsplit]
      exact maximal_runs_single _ hne hfree
    | cons d after =>
      rw [hrest] at h hsplit
      simp only [Option.some.injEq] at h
      subst h
      have hd : is_delimiter d = true := by
        have := List.head_dropWhile_not (fun c => !is_delimiter c) (x :: xs) (by rw [hrest]; simp)
        simpa [hrest] using this
      have hlen : ((x :: xs).takeWhile (fun c => !is_delimiter c)).length + (after.length + 1)
          = (x :: xs).length := by
        conv_rhs => rw [← hsplit]
        simp
      refine ⟨?_, by simp at hsuf hlen ⊢; omega, hne, hfree⟩
      conv_lhs => rw [← hsplit]
      exact maximal_runs_first _ d after hne hfree hd

theorem maximal_runs_length_le (n : Nat) : ∀ l : List Char, l.length ≤ n →
    (maximal_runs l).length ≤ l.length := by
  induction n with
  | zero =>
    intro l hl
    have : l = [] := List.length_eq_zero.mp (by omega)
    subst this; simp [maximal_runs_nil]
  | succ n ih =>
    intro l hl
    cases h : (strtok none BOOTHSHELL_TOK_DELIM l).1 with
    | none => rw [strtok_null l h]; simp
    | some t =>
      obtain ⟨h1, h2, _, _⟩ := strtok_token l t h
      rw [h1]
      have := ih _ (by omega : (strtok none BOOTHSHELL_TOK_DELIM l).2.length ≤ n)
      simp; omega

theorem maximal_runs_tokens (n : Nat) : ∀ l : List Char, l.length ≤ n →
    ∀ t ∈ maximal_runs l, t ≠ [] ∧ ∀ c ∈ t, ¬ is_delimiter c = true := by
  induction n with
  | zero =>
    intro l hl
    have : l = [] := List.length_eq_zero.mp (by omega)
    subst this; simp [maximal_runs_nil]
  | succ n ih =>
    intro l hl
    cases h : (strtok none BOOTHSHELL_TOK_DELIM l).1 with
    | none => rw [strtok_null l h]; simp
    | some t =>
      obtain ⟨h1, h2, h3, h4⟩ := strtok_token l t h
      rw [h1]
      intro u hu
      rcases List.mem_cons.mp hu with rfl | hu
      · exact ⟨h3, h4⟩
      · exact ih _ (by omega) u hu

theorem pending_after_strtok (save : Str) :
    pending_tokens (strtok none BOOTHSHELL_TOK_DELIM save).1
      (strtok none BOOTHSHELL_TOK_DELIM save).2 = maximal_runs save := by
  cases h : (strtok none BOOTHSHELL_TOK_DELIM save).1 with
  | none => simp [pending_tokens, strtok_null save h]
  | some t => simp [pending_tokens, (strtok_token save t h).1]

theorem fuel_after_strtok (save : Str) (fuel : Nat) (hfuel : save.length + 2 ≤ fuel + 1) :
    ((strtok none BOOTHSHELL_TOK_DELIM save).1 = none → 1 ≤ fuel) ∧
    ((strtok none BOOTHSHELL_TOK_DELIM save).1 ≠ none →
      (strtok none BOOTHSHELL_TOK_DELIM save).2.length + 2 ≤ fuel) := by
  refine ⟨fun _ => by omega, fun h => ?_⟩
  cases ht : (strtok none BOOTHSHELL_TOK_DELIM save).1 with
  | none => exact absurd ht h
  | some t =>
    have := (strtok_token save t ht).2.1
    omega

theorem split_line_loop_spec (os : OS) (w : World) (hre : ∀ n, os.realloc n = true) :
    ∀ (fuel : Nat) (token : Option Str) (save : Str) (position : Nat)
      (tokens : List (Option (Option Str))) (done : List Str),
      tokens.length = BOOTHSHELL_TOK_BUFSIZE * (position / BOOTHSHELL_TOK_BUFSIZE + 1) →
      done.length = position →
      tokens.take position = done.map (fun t => some (some t)) →
      (token = none → 1 ≤ fuel) → (token ≠ none → save.length + 2 ≤ fuel) →
      position + (pending_tokens token save).length + BOOTHSHELL_TOK_BUFSIZE ≤ INT_MAX →
      ∃ cells : List (Option (Option Str)),
        split_line_loop os w fuel token save tokens.length position tokens = .ret cells w ∧
        cells.length = BOOTHSHELL_TOK_BUFSIZE *
          ((position + (pending_tokens token save).length) / BOOTHSHELL_TOK_BUFSIZE + 1) ∧
        cells.take (position + (pending_tokens token save).length + 1)
          = (done ++ pending_tokens token save).map (fun t => some (some t)) ++ [some none] := by
  intro fuel
  induction fuel with
  | zero =>
    intro token save position tokens done _ _ _ h1 h2 _
    cases token with
    | none => exact absurd (h1 rfl) (by omega)
    | some t => exact absurd (h2 (by simp)) (by omega)
  | succ fuel ih =>
    intro token save position tokens done hcap hdone htake h1 h2 hmax
    simp only [BOOTHSHELL_TOK_BUFSIZE] at hcap hmax ⊢
    have hpos : position < tokens.length := by omega
    cases token with
    | none =>
      refine ⟨tokens.set position (some none), ?_, ?_, ?_⟩
      · simp [split_line_loop, hpos]
      · simpa [pending_tokens] using hcap
      · simp only [pending_tokens, List.length_nil, Nat.add_zero, List.append_nil]
        rw [set_take_succ _ _ _ hpos, htake]
    | some t =>
      have hfuel := fuel_after_strtok save fuel (h2 (by simp))
      have hpend := pending_after_strtok save
      have hplen : (pending_tokens (some t) save).length = (maximal_runs save).length + 1 := by
        simp [pending_tokens]
      rw [hplen] at hmax ⊢
      have hdone1 : (done ++ [t]).length = position + 1 := by simp [hdone]
      by_cases hgrow : position + 1 ≥ tokens.length
      · have hlen2 : (realloc_cells (tokens.set position (some (some t)))
            (tokens.length + 64)).length = tokens.length + 64 := realloc_cells_length _ _
        obtain ⟨cells, c1, c2, c3⟩ := ih (strtok none BOOTHSHELL_TOK_DELIM save).1
          (strtok none BOOTHSHELL_TOK_DELIM save).2 (position + 1)
          (realloc_cells (tokens.set position (some (some t))) (tokens.length + 64))
          (done ++ [t])
          (by rw [hlen2]; simp only [BOOTHSHELL_TOK_BUFSIZE]; omega)
          hdone1
          (by rw [realloc_cells_take _ _ _ (by simp; omega) (by omega),
                set_take_succ _ _ _ hpos, htake]; simp)
          hfuel.1 hfuel.2
          (by rw [hpend]; simp only [BOOTHSHELL_TOK_BUFSIZE]; omega)
        rw [hlen2] at c1
        rw [hpend] at c2 c3
        refine ⟨cells, ?_, ?_, ?_⟩
        · have hov : ¬ (tokens.length + 64 > INT_MAX) := by omega
          simp only [split_line_loop, hpos, if_true, hgrow, BOOTHSHELL_TOK_BUFSIZE, hov,
            if_false, hre]
          exact c1
        · simp only [BOOTHSHELL_TOK_BUFSIZE] at c2
          rw [c2]; congr 2; omega
        · have e : position + ((maximal_runs save).length + 1) + 1
              = position + 1 + (maximal_runs save).length + 1 := by omega
          rw [e, c3]
          simp [pending_tokens]
      · have hlen2 : (tokens.set position (some (some t))).length = tokens.length := by simp
        obtain ⟨cells, c1, c2, c3⟩ := ih (strtok none BOOTHSHELL_TOK_DELIM save).1
          (strtok none BOOTHSHELL_TOK_DELIM save).2 (position + 1)
          (tokens.set position (some (some t)))
          (done ++ [t])
          (by rw [hlen2]; simp only [BOOTHSHELL_TOK_BUFSIZE]; omega)
          hdone1
          (by rw [set_take_succ _ _ _ hpos, htake]; simp)
          hfuel.1 hfuel.2
          (by rw [hpend]; simp only [BOOTHSHELL_TOK_BUFSIZE]; omega)
        rw [hlen2] at c1
        rw [hpend] at c2 c3
        refine ⟨cells, ?_, ?_, ?_⟩
        · simp only [split_line_loop, hpos, if_true, hgrow, if_false]
          exact c1
        · simp only [BOOTHSHELL_TOK_BUFSIZE] at c2
          rw [c2]; congr 2; omega
        · have e : position + ((maximal_runs save).length + 1) + 1
              = position + 1 + (maximal_runs save).length + 1 := by omega
          rw [e, c3]
          simp [pending_tokens]

theorem arg_list_of_tokens (toks : List Str) (tail : List (Option (Option Str))) :
    arg_list (toks.map (fun t => some (some t)) ++ some none :: tail) = some toks := by
  induction toks with
  | nil => simp [arg_list]
  | cons t ts ih => simp [arg_list, ih]

theorem arg_list_of_take (toks : List Str) (cells : List (Option (Option Str)))
    (h : cells.take (toks.length + 1) = toks.map (fun t => some (some t)) ++ [some none]) :
    arg_list cells = some toks := by
  have hb : cells = toks.map (fun t => some (some t)) ++ some none
      :: cells.drop (toks.length + 1) := by
    conv_lhs => rw [← List.take_append_drop (toks.length + 1) cells, h]
    simp
  rw [hb]
  exact arg_list_of_tokens toks _

theorem split_line_spec (os : OS) (line : List Char) (w : World) (halloc : os.allocSucceeds)
    (hmax : (maximal_runs (line.takeWhile (fun c => c != NUL))).length
      + BOOTHSHELL_TOK_BUFSIZE ≤ INT_MAX) :
    ∃ args : List (Option (Option Str)),
      boothshell_split_line os line w = .ret args w ∧
      args.length = BOOTHSHELL_TOK_BUFSIZE *
        ((maximal_runs (line.takeWhile (fun c => c != NUL))).length / BOOTHSHELL_TOK_BUFSIZE + 1) ∧
      args.take ((maximal_runs (line.takeWhile (fun c => c != NUL))).length + 1)
        = (maximal_runs (line.takeWhile (fun c => c != NUL))).map (fun t => some (some t))
          ++ [some none] := by
  have hfuel := fuel_after_strtok (line.takeWhile (fun c => c != NUL))
    ((line.takeWhile (fun c => c != NUL)).length + 1) (by omega)
  have hpend := pending_after_strtok (line.takeWhile (fun c => c != NUL))
  obtain ⟨cells, c1, c2, c3⟩ := split_line_loop_spec os w (fun n => (halloc n).2)
    ((line.takeWhile (fun c => c != NUL)).length + 1)
    (strtok none BOOTHSHELL_TOK_DELIM (line.takeWhile (fun c => c != NUL))).1
    (strtok none BOOTHSHELL_TOK_DELIM (line.takeWhile (fun c => c != NUL))).2
    0 (List.replicate BOOTHSHELL_TOK_BUFSIZE none) []
    (by simp only [List.length_replicate, Nat.zero_div, Nat.zero_add, Nat.mul_one])
    rfl (by simp) hfuel.1 hfuel.2 (by rw [hpend]; omega)
  rw [hpend] at c2 c3
  simp only [List.length_replicate, Nat.zero_add, List.nil_append] at c1 c2 c3
  refine ⟨cells, ?_, c2, c3⟩
  simp only [boothshell_split_line, (halloc _).1, if_true, strtok_first_call]
  exact c1

/-! ## Main loop -/

theorem wait_loop_stdin (pid : Int) (reports : List WaitStatus) (w w' : World) (u : Unit)
    (h : wait_loop pid reports w = .ret u w') : w'.stdin = w.stdin := by
  induction reports generalizing w with
  | nil => simp [wait_loop] at h
  | cons s later ih =>
    simp only [wait_loop] at h
    split at h
    · have := ih _ h
      exact this
    · cases h; rfl

theorem launch_stdin (os : OS) (hkeep : os.childrenKeepStdin) (args : List Str)
    (w w' : World) (v : Int)
    (h : boothshell_launch os args w = .ret v w') : w'.stdin = w.stdin := by
  unfold boothshell_launch at h
  simp only at h
  split at h
  · split at h
    · cases h
    · split at h <;> cases h
  · split at h
    · cases h; rfl
    · cases hw : wait_loop (os.fork w) (os.waitpid (w.emit (.fork (os.fork w))) (os.fork w))
          (w.emit (.fork (os.fork w))) with
      | ret u w2 =>
        rw [hw] at h
        simp only [Outcome.bind] at h
        cases h
        exact hkeep _ _
      | halt c w2 => rw [hw] at h; simp [Outcome.bind] at h
      | execed w2 => rw [hw] at h; simp [Outcome.bind] at h
      | blocked w2 => rw [hw] at h; simp [Outcome.bind] at h
      | undefined => rw [hw] at h; simp [Outcome.bind] at h
      | outOfFuel => rw [hw] at h; simp [Outcome.bind] at h

theorem cd_stdin (os : OS) (args : List Str) (w w' : World) (v : Int)
    (h : boothshell_cd os args w = .ret v w') : w'.stdin = w.stdin := by
  unfold boothshell_cd at h
  split at h
  · cases h
  · cases h; rfl
  · simp only at h
    split at h <;> (cases h; rfl)

theorem foldl_keeps_stdin (g : World → Nat → World) (hg : ∀ w i, (g w i).stdin = w.stdin)
    (l : List Nat) (w : World) : (l.foldl g w).stdin = w.stdin := by
  induction l generalizing w with
  | nil => rfl
  | cons i is ih => simp only [List.foldl_cons]; rw [ih, hg]

theorem emit_stdin (w : World) (e : Event) : (w.emit e).stdin = w.stdin := rfl

theorem help_stdin (os : OS) (args : List Str) (w w' : World) (v : Int)
    (h : boothshell_help os args w = .ret v w') : w'.stdin = w.stdin := by
  unfold boothshell_help at h
  simp only at h
  cases h
  simp only [emit_stdin]
  refine (foldl_keeps_stdin _ ?_ _ _).trans ?_
  · intro _ _; rfl
  · simp only [emit_stdin]

theorem execute_stdin (os : OS) (hkeep : os.childrenKeepStdin) (args : List Str)
    (w w' : World) (v : Int)
    (h : boothshell_execute os args w = .ret v w') : w'.stdin = w.stdin := by
  cases args with
  | nil => simp only [boothshell_execute] at h; cases h; rfl
  | cons arg0 rest =>
    by_cases hname : arg0 ∈ builtin_str
    · simp only [builtin_str, List.mem_cons, List.mem_singleton, List.not_mem_nil, or_false]
        at hname
      rcases hname with rfl | rfl | rfl | rfl
      · have e : boothshell_execute os ("cd".toList :: rest) w
            = boothshell_cd os ("cd".toList :: rest) w := by
          simp [boothshell_execute, boothshell_num_builtins, builtin_str, execute_scan,
            builtin_func]
        exact cd_stdin os _ w w' v (e ▸ h)
      · have e : boothshell_execute os ("help".toList :: rest) w
            = boothshell_help os ("help".toList :: rest) w := by
          simp [boothshell_execute, boothshell_num_builtins, builtin_str, execute_scan,
            builtin_func]
        exact help_stdin os _ w w' v (e ▸ h)
      · have e : boothshell_execute os ("quit".toList :: rest) w = .ret 0 w := by
          simp [boothshell_execute, boothshell_num_builtins, builtin_str, execute_scan,
            builtin_func, boothshell_exit]
        rw [e] at h; cases h; rfl
      · have e : boothshell_execute os ("exit".toList :: rest) w = .undefined := by
          simp [boothshell_execute, boothshell_num_builtins, builtin_str, execute_scan,
            builtin_func]
        rw [e] at h; cases h
    · have e : boothshell_execute os (arg0 :: rest) w = boothshell_launch os (arg0 :: rest) w :=
        execute_scan_no_match os (arg0 :: rest) arg0 w hname
      exact launch_stdin os hkeep _ w w' v (e ▸ h)

theorem split_line_loop_world (os : OS) (w : World) :
    ∀ (fuel : Nat) (token : Option Str) (save : Str) (bufsize position : Nat)
      (tokens cells : List (Option (Option Str))) (w' : World),
      split_line_loop os w fuel token save bufsize position tokens = .ret cells w' → w' = w := by
  intro fuel
  induction fuel with
  | zero => intro token save bufsize position tokens cells w' h; simp [split_line_loop] at h
  | succ fuel ih =>
    intro token save bufsize position tokens cells w' h
    cases token with
    | none =>
      simp only [split_line_loop] at h
      split at h
      · cases h; rfl
      · cases h
    | some t =>
      simp only [split_line_loop] at h
      split at h
      · split at h
        · split at h
          · cases h
          · split at h
            · exact ih _ _ _ _ _ _ _ h
            · cases h
        · exact ih _ _ _ _ _ _ _ h
      · cases h

theorem split_line_world (os : OS) (line : List Char) (w w' : World)
    (args : List (Option (Option Str)))
    (h : boothshell_split_line os line w = .ret args w') : w' = w := by
  unfold boothshell_split_line at h
  simp only at h
  split at h
  · exact split_line_loop_world os w _ _ _ _ _ _ _ _ h
  · cases h

theorem dispatch_line_stdin (os : OS) (hkeep : os.childrenKeepStdin) (line : List Char)
    (w w' : World) (v : Int)
    (h : dispatch_line os line w = .ret v w') : w'.stdin = w.stdin := by
  unfold dispatch_line at h
  cases hs : boothshell_split_line os line w with
  | ret args w1 =>
    rw [hs] at h
    simp only [Outcome.bind] at h
    have hw := split_line_world os line w w1 args hs
    subst hw
    split at h
    · cases h
    · exact execute_stdin os hkeep _ _ _ _ h
  | halt c w2 => rw [hs] at h; simp [Outcome.bind] at h
  | execed w2 => rw [hs] at h; simp [Outcome.bind] at h
  | blocked w2 => rw [hs] at h; simp [Outcome.bind] at h
  | undefined => rw [hs] at h; simp [Outcome.bind] at h
  | outOfFuel => rw [hs] at h; simp [Outcome.bind] at h

theorem takeWhile_idem {α : Type} (p : α → Bool) (l : List α) :
    (l.takeWhile p).takeWhile p = l.takeWhile p := by
  induction l with
  | nil => rfl
  | cons x xs ih =>
    by_cases hx : p x = true
    · simp [List.takeWhile_cons, hx, ih]
    · simp [List.takeWhile_cons, hx]

theorem split_line_takeWhile (os : OS) (line : List Char) (w : World) :
    boothshell_split_line os (line.takeWhile (fun c => c != NUL)) w
      = boothshell_split_line os line w := by
  simp only [boothshell_split_line, takeWhile_idem]

theorem loop_body_line (os : OS) (w : World) (line rest : List Char)
    (halloc : os.allocSucceeds) (hnl : '\n' ∉ line) (hstdin : w.stdin = line ++ '\n' :: rest)
    (hlen : line.length + BOOTHSHELL_RL_BUFSIZE ≤ INT_MAX) :
    loop_body os w
      = dispatch_line os line { w with stdin := rest, trace := w.trace ++ [.printf "> "] } := by
  obtain ⟨buffer, h1, _, h3⟩ := read_line_newline os (w.emit (.printf "> ")) line rest halloc hnl
    hstdin hlen
  have hb : buffer = line.map some ++ some NUL :: buffer.drop (line.length + 1) := by
    conv_lhs => rw [← List.take_append_drop (line.length + 1) buffer, h3]
    simp
  have hc : c_str buffer = some (line.takeWhile (fun c => c != NUL)) := by
    rw [hb]; exact c_str_of_chars line _
  simp only [loop_body, h1, Outcome.bind, hc, split_line_takeWhile, dispatch_line]
  rfl

theorem unlines_length (lines : List (List Char)) : lines.length ≤ (unlines lines).length := by
  induction lines with
  | nil => simp [unlines]
  | cons l more ih => simp [unlines]; omega

theorem loop_passes_lines (os : OS) (halloc : os.allocSucceeds)
    (hkeep : os.childrenKeepStdin) (tail : List Char)
    (htail : '\n' ∉ tail) (htlen : tail.length + BOOTHSHELL_RL_BUFSIZE ≤ INT_MAX) :
    ∀ (lines : List (List Char)) (fuel : Nat) (w : World),
      (∀ l ∈ lines, '\n' ∉ l ∧ l.length + BOOTHSHELL_RL_BUFSIZE ≤ INT_MAX) →
      w.stdin = unlines lines ++ tail → lines.length + 1 ≤ fuel →
      loop_passes os fuel w = run_lines os tail lines w := by
  intro lines
  induction lines with
  | nil =>
    intro fuel w _ hstdin hfuel
    obtain ⟨f, rfl⟩ : ∃ f, fuel = f + 1 := ⟨fuel - 1, by simp at hfuel; omega⟩
    simp only [unlines, List.nil_append] at hstdin
    have h := read_line_no_newline os (w.emit (.printf "> ")) halloc
      (by rw [emit_stdin, hstdin]; exact htail) (by rw [emit_stdin, hstdin]; exact htlen)
    simp only [loop_passes, loop_body, h, Outcome.bind, run_lines]
    simp [World.emit]
  | cons l more ih =>
    intro fuel w hlines hstdin hfuel
    obtain ⟨f, rfl⟩ : ∃ f, fuel = f + 1 := ⟨fuel - 1, by simp at hfuel; omega⟩
    have hl := hlines l (List.mem_cons_self _ _)
    have hstdin1 : w.stdin = l ++ '\n' :: (unlines more ++ tail) := by
      rw [hstdin]; simp [unlines]
    have hbody := loop_body_line os w l (unlines more ++ tail) halloc hl.1 hstdin1 hl.2
    simp only [loop_passes, hbody, run_lines]
    cases hd : dispatch_line os l
        { w with stdin := unlines more ++ tail, trace := w.trace ++ [.printf "> "] } with
    | ret status w1 =>
      simp only [Outcome.bind]
      by_cases hs : status ≠ 0
      · rw [if_pos hs, if_pos hs]
        have hw1 : w1.stdin = unlines more ++ tail :=
          dispatch_line_stdin os hkeep l _ w1 status hd
        exact ih f w1 (fun x hx => hlines x (List.mem_cons_of_mem _ hx)) hw1
          (by simp at hfuel; omega)
      · rw [if_neg hs, if_neg hs]
    | halt c w2 => rfl
    | execed w2 => rfl
    | blocked w2 => rfl
    | undefined => rfl
    | outOfFuel => rfl

theorem loop_runs_lines (os : OS) (halloc : os.allocSucceeds)
    (hkeep : os.childrenKeepStdin) (tail : List Char)
    (htail : '\n' ∉ tail) (htlen : tail.length + BOOTHSHELL_RL_BUFSIZE ≤ INT_MAX)
    (lines : List (List Char)) (w : World)
    (hlines : ∀ l ∈ lines, '\n' ∉ l ∧ l.length + BOOTHSHELL_RL_BUFSIZE ≤ INT_MAX)
    (hstdin : w.stdin = unlines lines ++ tail) :
    boothshell_loop os w = run_lines os tail lines w :=
  loop_passes_lines os halloc hkeep tail htail htlen lines _ w hlines hstdin
    (by rw [hstdin, List.length_append]; have := unlines_length lines; omega)

/-! ## The claims about the tokenizer, the line reader and the main loop -/

theorem flatten_filter_nonempty {α : Type} (L : List (List α)) :
    (L.filter (fun piece => !piece.isEmpty)).flatten = L.flatten := by
  induction L with
  | nil => rfl
  | cons x xs ih =>
    cases x with
    | nil => simp [List.filter_cons, ih]
    | cons a as => simp [List.filter_cons, ih]

theorem flatten_splitOnP {α : Type} (p : α → Bool) (l : List α) :
    (l.splitOnP p).flatten = l.filter (fun c => !p c) := by
  induction l with
  | nil => simp [List.splitOnP_nil]
  | cons c cs ih =>
    rw [List.splitOnP_cons]
    by_cases hc : p c = true
    · simp [hc, ih]
    · simp only [hc, if_false, Bool.false_eq_true]
      cases hs : cs.splitOnP p with
      | nil => exact absurd hs (List.splitOnP_ne_nil p cs)
      | cons x xs =>
        rw [hs] at ih
        simp [List.modifyHead, List.filter_cons, hc, ← ih]

theorem maximal_runs_flatten (line : List Char) :
    (maximal_runs line).flatten = line.filter (fun c => !is_delimiter c) := by
  rw [maximal_runs, flatten_filter_nonempty, flatten_splitOnP]

theorem takeWhile_no_nul (line : List Char) (hnul : NUL ∉ line) :
    line.takeWhile (fun c => c != NUL) = line := by
  rw [List.takeWhile_eq_self_iff]
  intro c hc
  have : c ≠ NUL := fun h => hnul (h ▸ hc)
  simpa using this

/-- C1: for every line without NUL, when allocation succeeds and no `int`
overflows, `boothshell_split_line` returns an array that holds, from index 0
on, exactly the maximal non-empty runs of non-delimiter characters of the line
in left-to-right order, followed by the `NULL` end marker; so the argument list
read from it is that list of runs, whatever their number (also beyond 64, past
reallocations); no token is empty, no token contains a delimiter, and the
tokens put end to end are the non-delimiter characters of the line in their
original order. -/
theorem split_line_yields_maximal_runs (os : OS) (line : List Char) (w : World)
    (halloc : os.allocSucceeds) (hnul : NUL ∉ line)
    (hlen : line.length + BOOTHSHELL_TOK_BUFSIZE ≤ INT_MAX) :
    ∃ args : List (Option (Option Str)),
      boothshell_split_line os line w = .ret args w ∧
      args.take ((maximal_runs line).length + 1)
        = (maximal_runs line).map (fun t => some (some t)) ++ [some none] ∧
      arg_list args = some (maximal_runs line) ∧
      (∀ t ∈ maximal_runs line, t ≠ [] ∧ ∀ c ∈ t, c ∉ BOOTHSHELL_TOK_DELIM) ∧
      (maximal_runs line).flatten = line.filter (fun c => !BOOTHSHELL_TOK_DELIM.contains c) := by
  have hk := maximal_runs_length_le line.length line (Nat.le_refl _)
  obtain ⟨args, h1, _, h3⟩ := split_line_spec os line w halloc
    (by rw [takeWhile_no_nul line hnul]; omega)
  rw [takeWhile_no_nul line hnul] at h3
  refine ⟨args, h1, h3, arg_list_of_take _ _ h3, ?_, ?_⟩
  swap
  · rw [not_delim_fun_eq]; exact maximal_runs_flatten line
  intro t ht
  obtain ⟨hne, hfree⟩ := maximal_runs_tokens line.length line (Nat.le_refl _) t ht
  refine ⟨hne, fun c hc hmem => hfree c hc ?_⟩
  rw [← delim_contains]
  simpa using hmem

/-- Witness for C1: tokenizing "  ls   -la  " yields exactly "ls", "-la". -/
theorem split_line_yields_maximal_runs_witness :
    NUL ∉ "  ls   -la  ".toList ∧
    ∃ args : List (Option (Option Str)),
      boothshell_split_line os_demo "  ls   -la  ".toList w_demo = .ret args w_demo ∧
      arg_list args = some ["ls".toList, "-la".toList] := by
  refine ⟨by decide, ?_⟩
  obtain ⟨args, h1, _, h3, _, _⟩ := split_line_yields_maximal_runs os_demo "  ls   -la  ".toList
    w_demo (fun _ => ⟨rfl, rfl⟩) (by decide) (by decide)
  have hruns : maximal_runs "  ls   -la  ".toList = ["ls".toList, "-la".toList] := by decide
  exact ⟨args, h1, hruns ▸ h3⟩

/-- C5: for every line that is empty or made of delimiter characters only,
`boothshell_split_line` (its initial allocation granted) returns an array whose
entry 0 is the `NULL` end marker, the argument list read from it is empty, and
`boothshell_execute` on the empty argument list returns 1 with the process
state untouched: no builtin action, no fork.  The same holds for tokenizing and
dispatching the line in one go. -/
theorem blank_line_is_ignored (os : OS) (line : List Char) (w : World)
    (hmalloc : os.malloc (BOOTHSHELL_TOK_BUFSIZE * os.sizeof_ptr) = true)
    (hblank : ∀ c ∈ line, c ∈ BOOTHSHELL_TOK_DELIM) :
    ∃ args : List (Option (Option Str)),
      boothshell_split_line os line w = .ret args w ∧
      args[0]? = some (some none) ∧
      arg_list args = some [] ∧
      boothshell_execute os [] w = .ret 1 w ∧
      dispatch_line os line w = .ret 1 w := by
  have hdrop : (line.takeWhile (fun c => c != NUL)).dropWhile
      (fun c => BOOTHSHELL_TOK_DELIM.contains c) = [] := by
    rw [List.dropWhile_eq_nil_iff]
    intro c hc
    have := hblank c (List.takeWhile_subset _ hc)
    simpa using this
  have hsplit : boothshell_split_line os line w
      = .ret ((List.replicate BOOTHSHELL_TOK_BUFSIZE none).set 0 (some none)) w := by
    simp only [boothshell_split_line, hmalloc, if_true, strtok, Option.getD_some, hdrop,
      split_line_loop]
    simp [BOOTHSHELL_TOK_BUFSIZE]
  have hargs : arg_list ((List.replicate BOOTHSHELL_TOK_BUFSIZE
      (none : Option (Option Str))).set 0 (some none)) = some [] := by
    simp [BOOTHSHELL_TOK_BUFSIZE, List.replicate_succ, arg_list]
  refine ⟨_, hsplit, ?_, hargs, rfl, ?_⟩
  · simp [BOOTHSHELL_TOK_BUFSIZE, List.replicate_succ]
  · simp only [dispatch_line, hsplit, Outcome.bind, hargs]
    rfl

/-- Witness for C5 on a line of two spaces, a tab and a space. -/
theorem blank_line_is_ignored_witness :
    (∀ c ∈ "  \t ".toList, c ∈ BOOTHSHELL_TOK_DELIM) ∧
    dispatch_line os_demo "  \t ".toList w_demo = .ret 1 w_demo := by
  refine ⟨by decide, ?_⟩
  obtain ⟨_, _, _, _, _, h⟩ := blank_line_is_ignored os_demo "  \t ".toList w_demo rfl (by decide)
  exact h

/-- C6, as stated, fails: allocation succeeding, on a first line of
`INT_MAX - 1023` = 2147482624 characters followed by a newline,
`boothshell_read_line` does not return the line; `bufsize += 1024` leaves the
range of `int` when the buffer of 2147482624 cells is full. -/
theorem read_line_fails_on_long_line :
    os_demo.allocSucceeds ∧ '\n' ∉ long_line ∧ long_line.length = 2147482624 ∧
    w_long_line.stdin = long_line ++ '\n' :: [] ∧
    boothshell_read_line os_demo w_long_line = .undefined ∧
    ¬ ∃ (buffer : List (Option Char)) (w1 : World),
        boothshell_read_line os_demo w_long_line = .ret buffer w1 := by
  have h := read_line_overflow os_demo w_long_line (fun _ => ⟨rfl, rfl⟩) ['\n'] rfl
  refine ⟨fun _ => ⟨rfl, rfl⟩, long_line_no_newline, List.length_replicate _ _, rfl, h, ?_⟩
  rintro ⟨buffer, w1, hret⟩
  rw [h] at hret
  cases hret

/-- C6, amended: when standard input is `line`, a newline, then `rest`, with no
newline inside `line` and `line` of at most `INT_MAX - 1024` = 2147482623
characters, `boothshell_read_line` (allocation succeeding) returns a buffer
that starts with exactly the characters of `line`, in order, followed by the
terminating NUL and not by the newline; the input left unread is exactly
`rest`.  No assumption is made on the length of `line` relative to 1024, so
any number of reallocations is covered.  The C string in the buffer is `line`
up to its first NUL. -/
theorem read_line_returns_first_line (os : OS) (w : World) (line rest : List Char)
    (halloc : os.allocSucceeds) (hnl : '\n' ∉ line) (hstdin : w.stdin = line ++ '\n' :: rest)
    (hlen : line.length + BOOTHSHELL_RL_BUFSIZE ≤ INT_MAX) :
    ∃ buffer : List (Option Char),
      boothshell_read_line os w = .ret buffer { w with stdin := rest } ∧
      buffer.take (line.length + 1) = line.map some ++ [some NUL] ∧
      c_str buffer = some (line.takeWhile (fun c => c != NUL)) := by
  obtain ⟨buffer, h1, _, h3⟩ := read_line_newline os w line rest halloc hnl hstdin hlen
  refine ⟨buffer, h1, h3, ?_⟩
  have hb : buffer = line.map some ++ some NUL :: buffer.drop (line.length + 1) := by
    conv_lhs => rw [← List.take_append_drop (line.length + 1) buffer, h3]
    simp
  rw [hb]
  exact c_str_of_chars line _

/-- Witness for C6: the first of three lines is read. -/
theorem read_line_returns_first_line_witness :
    w_lines.stdin = "ls -la".toList ++ '\n' :: "quit\nfoo\n".toList ∧
    ∃ buffer : List (Option Char),
      boothshell_read_line os_demo w_lines
        = .ret buffer { w_lines with stdin := "quit\nfoo\n".toList } ∧
      c_str buffer = some "ls -la".toList := by
  refine ⟨by decide, ?_⟩
  obtain ⟨buffer, h1, _, h3⟩ := read_line_returns_first_line os_demo w_lines "ls -la".toList
    "quit\nfoo\n".toList (fun _ => ⟨rfl, rfl⟩) (by decide) (by decide) (by decide)
  exact ⟨buffer, h1, h3.trans (by decide)⟩

set_option maxRecDepth 1000000 in
/-- C8, as stated, fails.  First, with the input a short regular file holding
the lines "foo" and "bar" and no such programs, the `exit()` of the first child
(line 119) makes the shell read "bar" twice: the loop prints four prompts and
forks three children, where dispatching each line once, as `run_lines` does,
gives three prompts and two forks.  Second, allocation succeeding, on a single
line of `INT_MAX - 1023` characters the loop dispatches nothing: `bufsize`
leaves the range of `int`. -/
theorem loop_repeats_line_after_child_exit :
    os_rewind.allocSucceeds ∧
    w_two_commands.stdin = unlines ["foo".toList, "bar".toList] ∧
    boothshell_loop os_rewind w_two_commands
      = .halt EXIT_SUCCESS
          { stdin := [], cwd := "/".toList,
            trace := [.printf "> ", .fork 42, .waitpid 42 (.exited 1),
                      .printf "> ", .fork 42, .waitpid 42 (.exited 1),
                      .printf "> ", .fork 42, .waitpid 42 (.exited 1),
                      .printf "> "] } ∧
    run_lines os_rewind [] ["foo".toList, "bar".toList] w_two_commands
      = .halt EXIT_SUCCESS
          { stdin := [], cwd := "/".toList,
            trace := [.printf "> ", .fork 42, .waitpid 42 (.exited 1),
                      .printf "> ", .fork 42, .waitpid 42 (.exited 1),
                      .printf "> "] } ∧
    boothshell_loop os_rewind w_two_commands
      ≠ run_lines os_rewind [] ["foo".toList, "bar".toList] w_two_commands ∧
    w_long_line.stdin = unlines [long_line] ∧
    boothshell_loop os_demo w_long_line = .undefined := by
  have hloop : boothshell_loop os_rewind w_two_commands
      = .halt EXIT_SUCCESS
          { stdin := [], cwd := "/".toList,
            trace := [.printf "> ", .fork 42, .waitpid 42 (.exited 1),
                      .printf "> ", .fork 42, .waitpid 42 (.exited 1),
                      .printf "> ", .fork 42, .waitpid 42 (.exited 1),
                      .printf "> "] } := by decide
  have hrun : run_lines os_rewind [] ["foo".toList, "bar".toList] w_two_commands
      = .halt EXIT_SUCCESS
          { stdin := [], cwd := "/".toList,
            trace := [.printf "> ", .fork 42, .waitpid 42 (.exited 1),
                      .printf "> ", .fork 42, .waitpid 42 (.exited 1),
                      .printf "> "] } := by decide
  have hlong := read_line_overflow os_demo (w_long_line.emit (.printf "> "))
    (fun _ => ⟨rfl, rfl⟩) ['\n'] rfl
  refine ⟨fun _ => ⟨rfl, rfl⟩, by decide, hloop, hrun, ?_, rfl, ?_⟩
  · rw [hloop, hrun]
    decide
  · exact loop_undefined_of_read_line os_demo w_long_line hlong

/-- C8, amended: on an input made of newline-terminated lines of at most
`INT_MAX - 1024` = 2147482623 characters each, when allocation succeeds and the
children leave standard input alone, `boothshell_loop` behaves as the state
machine `run_lines` over these lines (nothing after the last newline): one prompt, then the
next line tokenized and dispatched, in input order, until a dispatch returns 0.
For the first line in particular: its dispatch leaves the later lines unread;
if it returns 0 the loop returns at once with that state; if it returns a
non-zero status the loop goes on exactly as a loop started in the resulting
state. -/
theorem loop_dispatches_lines_in_order (os : OS) (lines : List (List Char)) (w : World)
    (halloc : os.allocSucceeds) (hkeep : os.childrenKeepStdin)
    (hlines : ∀ l ∈ lines, '\n' ∉ l ∧ l.length + BOOTHSHELL_RL_BUFSIZE ≤ INT_MAX)
    (hstdin : w.stdin = unlines lines) :
    boothshell_loop os w = run_lines os [] lines w ∧
    ∀ (line : List Char) (more : List (List Char)), lines = line :: more →
      ∀ (status : Int) (w1 : World),
        dispatch_line os line
          { w with stdin := unlines more, trace := w.trace ++ [.printf "> "] }
            = .ret status w1 →
        w1.stdin = unlines more ∧
        (status = 0 → boothshell_loop os w = .ret () w1) ∧
        (status ≠ 0 → boothshell_loop os w = boothshell_loop os w1) := by
  have hrun : boothshell_loop os w = run_lines os [] lines w :=
    loop_runs_lines os halloc hkeep [] (by simp) (by decide) lines w hlines
      (by simpa using hstdin)
  refine ⟨hrun, ?_⟩
  intro line more hcons status w1 hd
  subst hcons
  have hw1 : w1.stdin = unlines more := dispatch_line_stdin os hkeep line _ w1 status hd
  refine ⟨hw1, ?_, ?_⟩
  · intro hs
    rw [hrun]
    simp only [run_lines, List.append_nil, hd, Outcome.bind]
    rw [if_neg (by simpa using hs)]
  · intro hs
    rw [hrun]
    simp only [run_lines, List.append_nil, hd, Outcome.bind]
    rw [if_pos hs]
    exact (loop_runs_lines os halloc hkeep [] (by simp) (by decide) more w1
      (fun x hx => hlines x (List.mem_cons_of_mem _ hx)) (by simpa using hw1)).symm

/-- Witness for C8: "ls -la" is launched, "quit" stops the loop, "foo" stays
unread. -/
theorem loop_dispatches_lines_in_order_witness :
    w_lines.stdin = unlines ["ls -la".toList, "quit".toList, "foo".toList] ∧
    boothshell_loop os_demo w_lines
      = .ret () { stdin := "foo\n".toList, cwd := "/".toList,
                  trace := [.printf "> ", .fork 42, .waitpid 42 (.stopped 19),
                            .waitpid 42 (.exited 3), .printf "> "] } :=
  ⟨by decide,
   (loop_dispatches_lines_in_order os_demo ["ls -la".toList, "quit".toList, "foo".toList]
      w_lines (fun _ => ⟨rfl, rfl⟩) (fun _ _ => rfl) (by decide) (by decide)).1.trans
      (by decide)⟩

theorem getElem?_of_take_eq {α : Type} (l front : List α) (a : α)
    (h : l.take (front.length + 1) = front ++ [a]) : l[front.length]? = some a := by
  have hl : l = front ++ a :: l.drop (front.length + 1) := by
    conv_lhs => rw [← List.take_append_drop (front.length + 1) l, h]
    simp
  rw [hl, List.getElem?_append_right (Nat.le_refl _)]
  simp

/-- C10: assuming allocation succeeds and no `int` overflows.  Every store
of the embedded functions is bounds-checked (an out-of-bounds store is
`Outcome.undefined`), and both functions return.  After a line of `n` characters
`boothshell_read_line` returns a buffer of capacity `1024 * (n / 1024 + 1)`,
with the terminator stored at index `n`, below the capacity.  For a line with
`k` tokens `boothshell_split_line` returns an array of capacity
`64 * (k / 64 + 1)`, with the end marker stored at index `k`, below the
capacity. -/
theorem buffers_grow_in_fixed_steps (os : OS) (w : World) (halloc : os.allocSucceeds) :
    (∀ line rest : List Char, '\n' ∉ line → w.stdin = line ++ '\n' :: rest →
      line.length + BOOTHSHELL_RL_BUFSIZE ≤ INT_MAX →
      ∃ (buffer : List (Option Char)) (w1 : World),
        boothshell_read_line os w = .ret buffer w1 ∧
        buffer.length = 1024 * (line.length / 1024 + 1) ∧
        line.length < buffer.length ∧
        buffer[line.length]? = some (some NUL)) ∧
    (∀ line : List Char,
      (maximal_runs (line.takeWhile (fun c => c != NUL))).length
        + BOOTHSHELL_TOK_BUFSIZE ≤ INT_MAX →
      ∃ args : List (Option (Option Str)),
        boothshell_split_line os line w = .ret args w ∧
        args.length
          = 64 * ((maximal_runs (line.takeWhile (fun c => c != NUL))).length / 64 + 1) ∧
        (maximal_runs (line.takeWhile (fun c => c != NUL))).length < args.length ∧
        args[(maximal_runs (line.takeWhile (fun c => c != NUL))).length]? = some (some none)) := by
  constructor
  · intro line rest hnl hstdin hlen
    obtain ⟨buffer, h1, h2, h3⟩ := read_line_newline os w line rest halloc hnl hstdin hlen
    simp only [BOOTHSHELL_RL_BUFSIZE] at h2
    refine ⟨buffer, _, h1, h2, by omega, ?_⟩
    have := getElem?_of_take_eq buffer (line.map some) (some NUL) (by simpa using h3)
    simpa using this
  · intro line hmax
    obtain ⟨args, h1, h2, h3⟩ := split_line_spec os line w halloc hmax
    simp only [BOOTHSHELL_TOK_BUFSIZE] at h2
    refine ⟨args, h1, h2, by omega, ?_⟩
    have := getElem?_of_take_eq args
      ((maximal_runs (line.takeWhile (fun c => c != NUL))).map (fun t => some (some t)))
      (some none) (by simpa using h3)
    simpa using this

/-- Witness for C10 on a line of six characters holding two tokens. -/
theorem buffers_grow_in_fixed_steps_witness :
    w_lines.stdin = "ls -la".toList ++ '\n' :: "quit\nfoo\n".toList ∧
    (∃ (buffer : List (Option Char)) (w1 : World),
      boothshell_read_line os_demo w_lines = .ret buffer w1 ∧
      buffer.length = 1024 * (6 / 1024 + 1) ∧ 6 < buffer.length ∧
      buffer[6]? = some (some NUL)) ∧
    ∃ args : List (Option (Option Str)),
      boothshell_split_line os_demo "ls -la".toList w_lines = .ret args w_lines ∧
      args.length = 64 * (2 / 64 + 1) ∧ args[2]? = some (some none) := by
  have hruns : (maximal_runs ("ls -la".toList.takeWhile (fun c => c != NUL))).length = 2 := by
    decide
  refine ⟨by decide,
    (buffers_grow_in_fixed_steps os_demo w_lines (fun _ => ⟨rfl, rfl⟩)).1 "ls -la".toList
      "quit\nfoo\n".toList (by decide) (by decide) (by decide), ?_⟩
  obtain ⟨args, h1, h2, _, h4⟩ :=
    (buffers_grow_in_fixed_steps os_demo w_lines (fun _ => ⟨rfl, rfl⟩)).2 "ls -la".toList
      (by rw [hruns]; decide)
  rw [hruns] at h2 h4
  exact ⟨args, h1, h2, h4⟩

end BoothShell
